import Mathlib

/-!
Verification development for the swagger_to_uml repository.

The repository ships only its packaging metadata (`setup.py`) in source
form; the schema-to-diagram transformation core that the package exists
to perform is described by the specification.  The core is therefore
modelled here from the specification's words, while `setup.py` is
embedded directly from the source.
-/

namespace SwaggerToUml

/-- Modelled from the spec: the generic nested mapping/sequence/scalar
structure that the core receives from the external parser (the
transformation core itself is missing from the shipped sources). -/
inductive Node where
  | scalar (s : String)
  | seq (items : List Node)
  | map (entries : List (String × Node))

/-- Modelled from the spec: the two error kinds the core surfaces,
each carrying a path/context string. -/
inductive CoreError where
  | malformedDocument (ctx : String)
  | unresolvedReference (ctx : String)
deriving DecidableEq, Repr

/-- Modelled from the spec: a property's declared type is either a
primitive type tag or a reference to another schema. -/
inductive PropType where
  | prim (tag : String)
  | ref (path : String)
deriving DecidableEq, Repr

/-- Modelled from the spec: a property of a schema definition. -/
structure Property where
  name : String
  type : PropType
  nullable : Bool
  required : Bool
  isArray : Bool
deriving DecidableEq, Repr

/-- Modelled from the spec: the five schema classifications. -/
inductive SchemaKind where
  | object
  | enum
  | array
  | scalar
  | composed
deriving DecidableEq, Repr

/-- Modelled from the spec: a classified schema definition. -/
structure SchemaDef where
  kind : SchemaKind
  properties : List Property
  parents : List String
  itemType : Option PropType
  enumValues : List String
deriving DecidableEq, Repr

/-- Modelled from the spec: relationship kinds. -/
inductive RelKind where
  | inheritance
  | composition
  | association
deriving DecidableEq, Repr

/-- Modelled from the spec: an edge between two schema names with a
kind and an optional multiplicity label. -/
structure Relationship where
  source : String
  target : String
  kind : RelKind
  mult : Option String
deriving DecidableEq, Repr

/-- Look a key up in a mapping node's entry list (first match). -/
def lookupKey (key : String) : List (String × Node) → Option Node
  | [] => none
  | (k, v) :: rest => if k = key then some v else lookupKey key rest

/-- Accumulator walk keeping the characters since the last slash. -/
def refNameAux : List Char → List Char → List Char
  | acc, [] => acc.reverse
  | _acc, '/' :: cs => refNameAux [] cs
  | acc, c :: cs => refNameAux (c :: acc) cs

/-- Modelled from the spec: the target identity of a reference path is
its last path component. -/
def refName (path : String) : String :=
  String.mk (refNameAux [] path.data)

/-- Extract the string of a scalar node. -/
def asScalarStr : Node → Option String
  | Node.scalar s => some s
  | _ => none

/-- The list of required property names declared by a schema mapping. -/
def requiredList (entries : List (String × Node)) : List String :=
  match lookupKey "required" entries with
  | some (Node.seq vs) => vs.filterMap asScalarStr
  | _ => []

/-- Whether the schema mapping carries a properties map. -/
def hasPropsMap (entries : List (String × Node)) : Bool :=
  match lookupKey "properties" entries with
  | some (Node.map _) => true
  | _ => false

/-- The declared primitive type tag of a schema mapping, when present. -/
def declaredType (entries : List (String × Node)) : Option String :=
  match lookupKey "type" entries with
  | some (Node.scalar t) => some t
  | _ => none

/-- Modelled from the spec: the item type of an array schema is taken
from the items' reference or inline type. -/
def itemTypeOf (entries : List (String × Node)) : PropType :=
  match lookupKey "items" entries with
  | some (Node.map ies) =>
    match lookupKey "$ref" ies with
    | some (Node.scalar path) => PropType.ref path
    | _ =>
      match lookupKey "type" ies with
      | some (Node.scalar t) => PropType.prim t
      | _ => PropType.prim "object"
  | _ => PropType.prim "object"

/-- Modelled from the spec: parse one raw property node into a
Property (reference, array-of, or primitive type, with nullable and
required flags). -/
def parseProperty (req : List String) (pname : String) (n : Node) : Property :=
  match n with
  | Node.map entries =>
    let nb : Bool :=
      match lookupKey "nullable" entries with
      | some (Node.scalar s) => s == "true"
      | _ => false
    match lookupKey "$ref" entries with
    | some (Node.scalar path) =>
      ⟨pname, PropType.ref path, nb, req.contains pname, false⟩
    | _ =>
      match lookupKey "type" entries with
      | some (Node.scalar "array") =>
        ⟨pname, itemTypeOf entries, nb, req.contains pname, true⟩
      | some (Node.scalar t) =>
        ⟨pname, PropType.prim t, nb, req.contains pname, false⟩
      | _ =>
        ⟨pname, PropType.prim "object", nb, req.contains pname, false⟩
  | _ => ⟨pname, PropType.prim "object", false, req.contains pname, false⟩

/-- The ordered own properties declared by a schema mapping. -/
def schemaProps (entries : List (String × Node)) : List Property :=
  match lookupKey "properties" entries with
  | some (Node.map props) =>
    props.map (fun q => parseProperty (requiredList entries) q.1 q.2)
  | _ => []

/-- Modelled from the spec: a combinator member that is a pure
reference (a mapping holding only a reference key). -/
def pureRefPath : Node → Option String
  | Node.map [("$ref", Node.scalar p)] => some p
  | _ => none

/-- Modelled from the spec: the inline properties carried by one
combinator member. -/
def memberProps : Node → List Property
  | Node.map me => schemaProps me
  | _ => []

/-- Whether the schema mapping carries a combinator list. -/
def hasCombinatorList (entries : List (String × Node)) : Bool :=
  match lookupKey "allOf" entries with
  | some (Node.seq _) => true
  | _ => false

/-- Whether the schema mapping carries an enumerated literal list. -/
def hasEnumList (entries : List (String × Node)) : Bool :=
  match lookupKey "enum" entries with
  | some (Node.seq _) => true
  | _ => false

/-- The default classification of an unrecognized shape: an object
with an empty property list. -/
def emptyObject : SchemaDef :=
  ⟨SchemaKind.object, [], [], none, []⟩

/-- Modelled from the spec: the Schema Interpreter.  Classifies one
raw schema definition into exactly one of the five kinds by
first-match-wins precedence (combinator, enum, array, object, scalar)
and fills in the kind-specific payload; an unrecognized (non-mapping)
shape defaults to an object with an empty property list. -/
def interpret (raw : Node) : SchemaDef :=
  match raw with
  | Node.map entries =>
    match lookupKey "allOf" entries with
    | some (Node.seq members) =>
      ⟨SchemaKind.composed,
       schemaProps entries ++ (members.map memberProps).flatten,
       members.filterMap pureRefPath, none, []⟩
    | _ =>
      match lookupKey "enum" entries with
      | some (Node.seq vs) =>
        ⟨SchemaKind.enum, [], [], none, vs.filterMap asScalarStr⟩
      | _ =>
        if declaredType entries = some "array" then
          ⟨SchemaKind.array, [], [], some (itemTypeOf entries), []⟩
        else if declaredType entries = some "object" ∨ hasPropsMap entries = true then
          ⟨SchemaKind.object, schemaProps entries, [], none, []⟩
        else
          ⟨SchemaKind.scalar, [], [], none, []⟩
  | _ => emptyObject

/-- Modelled from the spec: the Document Model.  Extracts the schema
section and fails with MalformedDocument when it is absent or not a
mapping at the top level. -/
def extractSchemas (doc : Node) : Except CoreError (List (String × Node)) :=
  match doc with
  | Node.map entries =>
    match lookupKey "definitions" entries with
    | some (Node.map schemas) => Except.ok schemas
    | some _ => Except.error (CoreError.malformedDocument "definitions")
    | none => Except.error (CoreError.malformedDocument "definitions")
  | _ => Except.error (CoreError.malformedDocument "document")

/-- Whether the document's schema section is absent or has a
non-mapping shape at the top level. -/
def malformedShape (doc : Node) : Bool :=
  match doc with
  | Node.map entries =>
    match lookupKey "definitions" entries with
    | some (Node.map _) => false
    | _ => true
  | _ => true

/-- Modelled from the spec: the Reference Resolver.  Returns the
target's identity (name and raw definition) by a single lookup, with
no recursive expansion, or fails with UnresolvedReference naming the
missing target. -/
def resolveRef (schemas : List (String × Node)) (path : String) :
    Except CoreError (String × Node) :=
  match lookupKey (refName path) schemas with
  | some raw => Except.ok (refName path, raw)
  | none => Except.error (CoreError.unresolvedReference (refName path))

/-- One inheritance edge for a resolved parent reference. -/
def parentEdge (schemas : List (String × Node)) (src : String) (path : String) :
    Except CoreError Relationship :=
  match resolveRef schemas path with
  | Except.ok r => Except.ok ⟨src, r.1, RelKind.inheritance, none⟩
  | Except.error e => Except.error e

/-- Modelled from the spec: the edge emitted for a property whose
reference resolved to the target r — a composition edge when the
target is structural (object/enum/composed), an association edge when
it is a scalar-like alias; multiplicity is "many" exactly when the
property is array-typed. -/
def edgeFor (src : String) (p : Property) (r : String × Node) : Relationship :=
  if (interpret r.2).kind = SchemaKind.object ∨ (interpret r.2).kind = SchemaKind.enum ∨
      (interpret r.2).kind = SchemaKind.composed then
    ⟨src, r.1, RelKind.composition, if p.isArray then some "many" else none⟩
  else
    ⟨src, r.1, RelKind.association, if p.isArray then some "many" else none⟩

/-- Modelled from the spec: one edge for a property whose type is a
reference, no edge for a primitive type, failing when the reference
does not resolve. -/
def propEdge (schemas : List (String × Node)) (src : String) (p : Property) :
    Except CoreError (Option Relationship) :=
  match p.type with
  | PropType.prim _ => Except.ok none
  | PropType.ref path =>
    match resolveRef schemas path with
    | Except.error e => Except.error e
    | Except.ok r => Except.ok (some (edgeFor src p r))

/-- Effectful map over a list, failing fast on the first error. -/
def mapME {α β ε : Type} (f : α → Except ε β) : List α → Except ε (List β)
  | [] => Except.ok []
  | a :: as =>
    match f a with
    | Except.error e => Except.error e
    | Except.ok b =>
      match mapME f as with
      | Except.error e => Except.error e
      | Except.ok bs => Except.ok (b :: bs)

/-- All edges of one classified schema: inheritance edges from its
parents, then property edges in declaration order. -/
def schemaEdges (schemas : List (String × Node)) (src : String) (sd : SchemaDef) :
    Except CoreError (List Relationship) :=
  match mapME (parentEdge schemas src) sd.parents with
  | Except.error e => Except.error e
  | Except.ok pes =>
    match mapME (propEdge schemas src) sd.properties with
    | Except.error e => Except.error e
    | Except.ok oes => Except.ok (pes ++ oes.filterMap id)

/-- Lexicographic order on character lists by code point. -/
def charListLE : List Char → List Char → Bool
  | [], _ => true
  | _ :: _, [] => false
  | c :: cs, d :: ds =>
    if c.toNat < d.toNat then true
    else if d.toNat < c.toNat then false
    else charListLE cs ds

/-- Lexical order on strings by code point. -/
def strLE (s t : String) : Bool := charListLE s.data t.data

/-- Order on schema entries by name. -/
def keyLE (a b : String × Node) : Prop := strLE a.1 b.1 = true

/-- Order on relationships by source name. -/
def relLE (a b : Relationship) : Prop := strLE a.source b.source = true

instance : DecidableRel keyLE :=
  fun a b => inferInstanceAs (Decidable (strLE a.1 b.1 = true))

instance : IsTotal (String × Node) keyLE where
  total := by
    have h : ∀ x y : List Char, charListLE x y = true ∨ charListLE y x = true := by
      intro x
      induction x with
      | nil => intro y; exact Or.inl rfl
      | cons c cs ih =>
        intro y
        cases y with
        | nil => exact Or.inr rfl
        | cons d ds =>
          by_cases h1 : c.toNat < d.toNat
          · left; simp [charListLE, h1]
          · by_cases h2 : d.toNat < c.toNat
            · right; simp [charListLE, h2]
            · rcases ih ds with hc | hc
              · left; simp [charListLE, h1, h2, hc]
              · right; simp [charListLE, h1, h2, hc]
    intro a b
    exact h a.1.data b.1.data

instance : IsTrans (String × Node) keyLE where
  trans := by
    have h : ∀ x y z : List Char, charListLE x y = true → charListLE y z = true →
        charListLE x z = true := by
      intro x
      induction x with
      | nil => intro y z _ _; rfl
      | cons c cs ih =>
        intro y z h1 h2
        cases y with
        | nil => simp [charListLE] at h1
        | cons d ds =>
          cases z with
          | nil => simp [charListLE] at h2
          | cons e es =>
            simp only [charListLE] at h1 h2 ⊢
            by_cases hcd : c.toNat < d.toNat
            · by_cases hde : d.toNat < e.toNat
              · simp [Nat.lt_trans hcd hde]
              · by_cases hed : e.toNat < d.toNat
                · simp [hde, hed] at h2
                · have he : c.toNat < e.toNat := by omega
                  simp [he]
            · by_cases hdc : d.toNat < c.toNat
              · simp [hcd, hdc] at h1
              · simp [hcd, hdc] at h1
                by_cases hde : d.toNat < e.toNat
                · have he : c.toNat < e.toNat := by omega
                  simp [he]
                · by_cases hed : e.toNat < d.toNat
                  · simp [hde, hed] at h2
                  · simp [hde, hed] at h2
                    have hce : ¬ c.toNat < e.toNat := by omega
                    have hec : ¬ e.toNat < c.toNat := by omega
                    simp [hce, hec]
                    exact ih ds es h1 h2
    intro a b c h1 h2
    exact h a.1.data b.1.data c.1.data h1 h2

/-- Modelled from the spec: the canonical order of the schema entries,
ascending lexical by name (stable). -/
def sortSchemas (schemas : List (String × Node)) : List (String × Node) :=
  List.insertionSort keyLE schemas

/-- Modelled from the spec: the Relationship Extractor.  Emits every
schema's edges, schemas taken in ascending lexical name order, failing
fast on the first unresolved reference. -/
def extractRels (schemas : List (String × Node)) :
    Except CoreError (List Relationship) :=
  match mapME (fun q => schemaEdges schemas q.1 (interpret q.2)) (sortSchemas schemas) with
  | Except.error e => Except.error e
  | Except.ok chunks => Except.ok chunks.flatten

/-- Pure form of a parent edge (used to state the ordering result). -/
def parentEdgePure (src path : String) : Relationship :=
  ⟨src, refName path, RelKind.inheritance, none⟩

/-- Pure form of a property edge: the edge the extractor emits for the
property when its reference (if any) resolves. -/
def propEdgeOpt (schemas : List (String × Node)) (src : String) (p : Property) :
    Option Relationship :=
  match p.type with
  | PropType.prim _ => none
  | PropType.ref path =>
    match lookupKey (refName path) schemas with
    | none => none
    | some raw => some (edgeFor src p (refName path, raw))

/-- Pure form of one schema's edge list: parent edges first, then
property edges in declaration order. -/
def schemaEdgesPure (schemas : List (String × Node)) (src : String) (sd : SchemaDef) :
    List Relationship :=
  sd.parents.map (parentEdgePure src) ++ sd.properties.filterMap (propEdgeOpt schemas src)

/-- Render a property type: its primitive tag or the referenced name. -/
def renderType : PropType → String
  | PropType.prim t => t
  | PropType.ref path => refName path

/-- Valid diagram-identifier characters. -/
def identChar (c : Char) : Bool := c.isAlphanum || c == '_'

/-- Quote a name that holds characters outside the identifier set. -/
def quoteName (s : String) : String :=
  if s.data.all identChar then s else "\"" ++ s ++ "\""

/-- Render one member line, with array and nullable markers per the
declared flags. -/
def renderProp (p : Property) : String :=
  "  " ++ p.name ++ " : " ++ renderType p.type ++
    (if p.isArray then "[]" else "") ++
    (if p.nullable then " (nullable)" else "")

/-- Render an optional multiplicity label. -/
def multLabel : Option String → String
  | some m => "\"" ++ m ++ "\" "
  | none => ""

/-- Render one relationship as an arrow line. -/
def renderRel (r : Relationship) : String :=
  match r.kind with
  | RelKind.inheritance => quoteName r.source ++ " --|> " ++ quoteName r.target
  | RelKind.composition =>
    quoteName r.source ++ " *-- " ++ multLabel r.mult ++ quoteName r.target
  | RelKind.association =>
    quoteName r.source ++ " --> " ++ multLabel r.mult ++ quoteName r.target

/-- Render one entity block; scalar schemas are not rendered as their
own entity, enum entities render their literal values. -/
def renderEntity (ename : String) (sd : SchemaDef) : List String :=
  match sd.kind with
  | SchemaKind.scalar => []
  | SchemaKind.enum =>
    ("enum " ++ quoteName ename ++ " \x7b") ::
      (sd.enumValues.map (fun v => "  " ++ v) ++ ["\x7d"])
  | _ =>
    ("class " ++ quoteName ename ++ " \x7b") ::
      (sd.properties.map renderProp ++ ["\x7d"])

/-- Modelled from the spec: the Diagram Renderer.  Entities in
canonical order, then relationships, joined into one text. -/
def renderDiagram (sorted : List (String × Node)) (rels : List Relationship) : String :=
  String.intercalate "\n"
    ("@startuml" ::
      ((sorted.map (fun q => renderEntity q.1 (interpret q.2))).flatten ++
        rels.map renderRel ++ ["@enduml"])) ++ "\n"

/-- Modelled from the spec: the full pipeline, Document Model through
Diagram Renderer. -/
def pipeline (doc : Node) : Except CoreError String :=
  match extractSchemas doc with
  | Except.error e => Except.error e
  | Except.ok schemas =>
    match extractRels schemas with
    | Except.error e => Except.error e
    | Except.ok rels => Except.ok (renderDiagram (sortSchemas schemas) rels)

/-! Concrete example documents from the spec's testable properties. -/

/-- The Pet schema of the spec's inheritance example. -/
def petSchema : Node :=
  Node.map [("type", Node.scalar "object"),
    ("properties", Node.map [("name", Node.map [("type", Node.scalar "string")])])]

/-- The Dog schema of the spec's inheritance example. -/
def dogSchema : Node :=
  Node.map [("allOf", Node.seq
    [Node.map [("$ref", Node.scalar "#/definitions/Pet")],
     Node.map [("properties", Node.map
       [("breed", Node.map [("type", Node.scalar "string")])])]])]

/-- The schema section of the Pet/Dog example. -/
def petDogSchemas : List (String × Node) := [("Pet", petSchema), ("Dog", dogSchema)]

/-- The Pet/Dog example document. -/
def docPetDog : Node := Node.map [("definitions", Node.map petDogSchemas)]

/-- The diagram text the pipeline renders for the Pet/Dog example. -/
def petDogText : String :=
  "@startuml\nclass Dog \x7b\n  breed : string\n\x7d\nclass Pet \x7b\n  name : string\n\x7d\nDog --|> Pet\n@enduml\n"

/-- Schema A of the mutual-cycle example: refers to B. -/
def rawA : Node :=
  Node.map [("type", Node.scalar "object"),
    ("properties", Node.map [("b", Node.map [("$ref", Node.scalar "#/definitions/B")])])]

/-- Schema B of the mutual-cycle example: refers back to A. -/
def rawB : Node :=
  Node.map [("type", Node.scalar "object"),
    ("properties", Node.map [("a", Node.map [("$ref", Node.scalar "#/definitions/A")])])]

/-- The schema section of the mutual-cycle example. -/
def cycleSchemas : List (String × Node) := [("A", rawA), ("B", rawB)]

/-- The mutual-cycle example document. -/
def docCycle : Node := Node.map [("definitions", Node.map cycleSchemas)]

/-- Schema C of the self-cycle example: refers to itself. -/
def rawC : Node :=
  Node.map [("type", Node.scalar "object"),
    ("properties", Node.map [("c", Node.map [("$ref", Node.scalar "#/definitions/C")])])]

/-- The schema section of the self-cycle example. -/
def selfSchemas : List (String × Node) := [("C", rawC)]

/-- The self-cycle example document. -/
def docSelf : Node := Node.map [("definitions", Node.map selfSchemas)]

/-- A Dog schema referring to a nonexistent Animal schema. -/
def dogAnimalRaw : Node :=
  Node.map [("allOf", Node.seq [Node.map [("$ref", Node.scalar "#/definitions/Animal")]])]

/-- The schema section of the unresolved-reference example. -/
def dogAnimalSchemas : List (String × Node) := [("Dog", dogAnimalRaw)]

/-- The unresolved-reference example document. -/
def docDogAnimal : Node := Node.map [("definitions", Node.map dogAnimalSchemas)]

/-- A schema whose combinator list is a single pure reference to Pet
and which has no own properties. -/
def catRaw : Node :=
  Node.map [("allOf", Node.seq [Node.map [("$ref", Node.scalar "#/definitions/Pet")]])]

/-- The schema section of the pure-inheritance example. -/
def catSchemas : List (String × Node) := [("Cat", catRaw), ("Pet", petSchema)]

/-! Embedding of src/setup.py. -/

/-- The keyword arguments of the one setup call in src/setup.py;
packages is the runtime result of find_packages(). -/
structure SetupArgs where
  name : String
  version : String
  description : String
  classifiers : List String
  author : String
  author_email : String
  license : String
  url : String
  keywords : String
  packages : List String
  include_package_data : Bool
  zip_safe : Bool
  install_requires : List String
  tests_require : List String
  scripts : List String
deriving DecidableEq, Repr

/-- The requires list of src/setup.py. -/
def requires : List String := ["PyYAML==5.4"]

/-- The setup call of src/setup.py, parameterized by the value
find_packages() returns at runtime. -/
def setupCall (foundPackages : List String) : SetupArgs :=
  ⟨"swagger_to_uml", "0.1", "swagger_to_uml",
   ["Programming Language :: Python"],
   "Niels Lohmann", "mail@nlohmann.me", "MIT", "http://nlohmann.me",
   "swagger uml plantuml", foundPackages, true, false,
   requires, requires, ["bin/swagger_to_uml"]⟩

/-! Theorems. -/

theorem mapME_ok_forall2 {α β ε : Type} (f : α → Except ε β) :
    ∀ (l : List α) (bs : List β), mapME f l = Except.ok bs →
      List.Forall₂ (fun a b => f a = Except.ok b) l bs := by
  intro l
  induction l with
  | nil => intro bs h; cases h; exact List.Forall₂.nil
  | cons a as ih =>
    intro bs h
    unfold mapME at h
    cases hfa : f a with
    | error e => rw [hfa] at h; cases h
    | ok b =>
      rw [hfa] at h
      cases hrec : mapME f as with
      | error e => rw [hrec] at h; cases h
      | ok bs' =>
        rw [hrec] at h
        cases h
        exact List.Forall₂.cons hfa (ih bs' hrec)

theorem mapME_error_mem {α β ε : Type} (f : α → Except ε β) :
    ∀ (l : List α) (e : ε), mapME f l = Except.error e →
      ∃ a, a ∈ l ∧ f a = Except.error e := by
  intro l
  induction l with
  | nil => intro e h; cases h
  | cons a as ih =>
    intro e h
    unfold mapME at h
    cases hfa : f a with
    | error e2 =>
      rw [hfa] at h
      cases h
      exact ⟨a, List.mem_cons_self a as, hfa⟩
    | ok b =>
      rw [hfa] at h
      cases hrec : mapME f as with
      | error e2 =>
        rw [hrec] at h
        cases h
        rcases ih e hrec with ⟨a', ha', hfa'⟩
        exact ⟨a', List.mem_cons_of_mem a ha', hfa'⟩
      | ok bs' => rw [hrec] at h; cases h

theorem mapME_error_of_mem {α β ε : Type} (f : α → Except ε β) :
    ∀ (l : List α) (a : α) (e : ε), a ∈ l → f a = Except.error e →
      ∃ e', mapME f l = Except.error e' := by
  intro l
  induction l with
  | nil => intro a e h; cases h
  | cons x xs ih =>
    intro a e hmem hfa
    unfold mapME
    cases hfx : f x with
    | error e2 => exact ⟨e2, rfl⟩
    | ok b =>
      rcases List.mem_cons.mp hmem with h | h
      · subst h; rw [hfa] at hfx; cases hfx
      · rcases ih a e h hfa with ⟨e', he'⟩
        rw [he']
        exact ⟨e', rfl⟩

theorem forall2_ok_eq_map {α β ε : Type} (f : α → Except ε β) (g : α → β)
    (hg : ∀ a b, f a = Except.ok b → b = g a) :
    ∀ (l : List α) (bs : List β),
      List.Forall₂ (fun a b => f a = Except.ok b) l bs → bs = l.map g := by
  intro l bs h
  induction h with
  | nil => rfl
  | cons hab _ ih => rw [List.map_cons, ← hg _ _ hab, ih]

theorem parentEdge_ok {schemas : List (String × Node)} {src path : String}
    {r : Relationship} (h : parentEdge schemas src path = Except.ok r) :
    r = parentEdgePure src path := by
  cases hl : lookupKey (refName path) schemas with
  | none =>
    simp only [parentEdge, resolveRef, hl] at h
    exact Except.noConfusion h
  | some raw =>
    simp only [parentEdge, resolveRef, hl] at h
    cases h
    rfl

theorem parentEdge_error {schemas : List (String × Node)} {src path : String}
    {e : CoreError} (h : parentEdge schemas src path = Except.error e) :
    e = CoreError.unresolvedReference (refName path) ∧
      lookupKey (refName path) schemas = none := by
  cases hl : lookupKey (refName path) schemas with
  | none =>
    simp only [parentEdge, resolveRef, hl] at h
    cases h
    exact ⟨rfl, rfl⟩
  | some raw =>
    simp only [parentEdge, resolveRef, hl] at h
    exact Except.noConfusion h

theorem parentEdge_error_of_unknown {schemas : List (String × Node)}
    {src path : String} (h : lookupKey (refName path) schemas = none) :
    parentEdge schemas src path =
      Except.error (CoreError.unresolvedReference (refName path)) := by
  simp only [parentEdge, resolveRef, h]

theorem propEdge_ok {schemas : List (String × Node)} {src : String}
    {p : Property} {o : Option Relationship}
    (h : propEdge schemas src p = Except.ok o) :
    o = propEdgeOpt schemas src p := by
  cases ht : p.type with
  | prim t =>
    simp only [propEdge, propEdgeOpt, ht] at h ⊢
    cases h
    rfl
  | ref path =>
    cases hl : lookupKey (refName path) schemas with
    | none =>
      simp only [propEdge, resolveRef, ht, hl] at h
      exact Except.noConfusion h
    | some raw =>
      simp only [propEdge, propEdgeOpt, resolveRef, ht, hl] at h ⊢
      cases h
      rfl

theorem propEdge_error {schemas : List (String × Node)} {src : String}
    {p : Property} {e : CoreError}
    (h : propEdge schemas src p = Except.error e) :
    ∃ m, e = CoreError.unresolvedReference m ∧ lookupKey m schemas = none := by
  cases ht : p.type with
  | prim t =>
    simp only [propEdge, ht] at h
    exact Except.noConfusion h
  | ref path =>
    cases hl : lookupKey (refName path) schemas with
    | none =>
      simp only [propEdge, resolveRef, ht, hl] at h
      cases h
      exact ⟨refName path, rfl, hl⟩
    | some raw =>
      simp only [propEdge, resolveRef, ht, hl] at h
      exact Except.noConfusion h

theorem propEdge_error_of_unknown {schemas : List (String × Node)}
    {src path : String} {p : Property} (ht : p.type = PropType.ref path)
    (h : lookupKey (refName path) schemas = none) :
    propEdge schemas src p =
      Except.error (CoreError.unresolvedReference (refName path)) := by
  simp only [propEdge, resolveRef, ht, h]

theorem propEdgeOpt_some_source {schemas : List (String × Node)} {src : String}
    {p : Property} {r : Relationship} (h : propEdgeOpt schemas src p = some r) :
    r.source = src := by
  cases ht : p.type with
  | prim t =>
    simp only [propEdgeOpt, ht] at h
    exact Option.noConfusion h
  | ref path =>
    cases hl : lookupKey (refName path) schemas with
    | none =>
      simp only [propEdgeOpt, ht, hl] at h
      exact Option.noConfusion h
    | some raw =>
      simp only [propEdgeOpt, ht, hl] at h
      cases h
      unfold edgeFor
      split <;> rfl

/-- C10: evaluating the packaging module invokes setup with
install_requires and tests_require both the single-element requires
list pinning PyYAML at exactly version 5.4, and scripts equal to
the single swagger_to_uml script. -/
theorem c10_setup_args (foundPackages : List String) :
    (setupCall foundPackages).install_requires = ["PyYAML==5.4"] ∧
    (setupCall foundPackages).tests_require = ["PyYAML==5.4"] ∧
    (setupCall foundPackages).install_requires = requires ∧
    (setupCall foundPackages).tests_require = requires ∧
    requires.length = 1 ∧
    (setupCall foundPackages).scripts = ["bin/swagger_to_uml"] :=
  ⟨rfl, rfl, rfl, rfl, rfl, rfl⟩

/-- C1: the pipeline is a pure function of the input document:
identical inputs yield equal results and byte-identical output texts. -/
theorem c1_deterministic (d1 d2 : Node) (s1 s2 : String)
    (hd : d1 = d2)
    (h1 : pipeline d1 = Except.ok s1)
    (h2 : pipeline d2 = Except.ok s2) :
    s1 = s2 ∧ s1.data = s2.data := by
  subst hd
  rw [h1] at h2
  cases h2
  exact ⟨rfl, rfl⟩

/-- C8: the Schema Interpreter is total by construction (it is a plain
function with no error result); an unrecognized (non-mapping) shape is
classified as an object with an empty property list, and such an
entity is still rendered rather than dropped. -/
theorem c8_interpreter_total :
    (∀ s, interpret (Node.scalar s) = emptyObject) ∧
    (∀ items, interpret (Node.seq items) = emptyObject) ∧
    (∀ ename s, renderEntity ename (interpret (Node.scalar s)) =
      ["class " ++ quoteName ename ++ " \x7b", "\x7d"]) ∧
    (∀ ename items, renderEntity ename (interpret (Node.seq items)) =
      ["class " ++ quoteName ename ++ " \x7b", "\x7d"]) :=
  ⟨fun _ => rfl, fun _ => rfl, fun _ _ => rfl, fun _ _ => rfl⟩

/-- C2: the Schema Interpreter classifies every raw mapping-shaped
schema definition into exactly one of the five kinds by
first-match-wins precedence: combinator list, then enum list, then
declared type array, then declared type object or a properties map,
else scalar. -/
theorem c2_classification_precedence (entries : List (String × Node)) :
    (interpret (Node.map entries)).kind =
      (if hasCombinatorList entries then SchemaKind.composed
       else if hasEnumList entries then SchemaKind.enum
       else if declaredType entries = some "array" then SchemaKind.array
       else if declaredType entries = some "object" ∨ hasPropsMap entries = true then
         SchemaKind.object
       else SchemaKind.scalar) := by
  unfold interpret hasCombinatorList hasEnumList
  cases h1 : lookupKey "allOf" entries <;> try (rename_i v; cases v)
  all_goals simp only [h1]
  all_goals try rfl
  all_goals (cases h2 : lookupKey "enum" entries <;> try (rename_i w; cases w))
  all_goals simp only [h2]
  all_goals try rfl
  all_goals (by_cases ha : declaredType entries = some "array" <;>
    by_cases ho : declaredType entries = some "object" ∨ hasPropsMap entries = true <;>
    simp [ha, ho])

theorem schemaEdges_ok (schemas : List (String × Node)) (src : String)
    (sd : SchemaDef) (es : List Relationship)
    (h : schemaEdges schemas src sd = Except.ok es) :
    es = schemaEdgesPure schemas src sd := by
  cases h1 : mapME (parentEdge schemas src) sd.parents with
  | error e =>
    simp only [schemaEdges, h1] at h
    exact Except.noConfusion h
  | ok pes =>
    cases h2 : mapME (propEdge schemas src) sd.properties with
    | error e =>
      simp only [schemaEdges, h1, h2] at h
      exact Except.noConfusion h
    | ok oes =>
      simp only [schemaEdges, h1, h2] at h
      cases h
      unfold schemaEdgesPure
      have hp : pes = sd.parents.map (parentEdgePure src) :=
        forall2_ok_eq_map _ _ (fun a b hb => parentEdge_ok hb) sd.parents pes
          (mapME_ok_forall2 _ sd.parents pes h1)
      have ho : oes = sd.properties.map (propEdgeOpt schemas src) :=
        forall2_ok_eq_map _ _ (fun a b hb => propEdge_ok hb) sd.properties oes
          (mapME_ok_forall2 _ sd.properties oes h2)
      rw [hp, ho, List.filterMap_map]
      rfl

theorem schemaEdges_error (schemas : List (String × Node)) (src : String)
    (sd : SchemaDef) (e : CoreError)
    (h : schemaEdges schemas src sd = Except.error e) :
    ∃ m, e = CoreError.unresolvedReference m ∧ lookupKey m schemas = none := by
  cases h1 : mapME (parentEdge schemas src) sd.parents with
  | error e1 =>
    simp only [schemaEdges, h1] at h
    cases h
    rcases mapME_error_mem _ sd.parents _ h1 with ⟨path, _, hpe⟩
    rcases parentEdge_error hpe with ⟨he, hn⟩
    exact ⟨refName path, he, hn⟩
  | ok pes =>
    cases h2 : mapME (propEdge schemas src) sd.properties with
    | error e2 =>
      simp only [schemaEdges, h1, h2] at h
      cases h
      rcases mapME_error_mem _ sd.properties _ h2 with ⟨p, _, hpe⟩
      exact propEdge_error hpe
    | ok oes =>
      simp only [schemaEdges, h1, h2] at h
      exact Except.noConfusion h

theorem schemaEdges_error_of_ref (schemas : List (String × Node)) (src : String)
    (sd : SchemaDef) (path : String)
    (hocc : path ∈ sd.parents ∨
      ∃ p, p ∈ sd.properties ∧ p.type = PropType.ref path)
    (hunk : lookupKey (refName path) schemas = none) :
    ∃ e, schemaEdges schemas src sd = Except.error e := by
  rcases hocc with hp | ⟨p, hp, ht⟩
  · rcases mapME_error_of_mem (parentEdge schemas src) sd.parents path _ hp
      (parentEdge_error_of_unknown hunk) with ⟨e', he'⟩
    exact ⟨e', by simp only [schemaEdges, he']⟩
  · cases h1 : mapME (parentEdge schemas src) sd.parents with
    | error e1 => exact ⟨e1, by simp only [schemaEdges, h1]⟩
    | ok pes =>
      rcases mapME_error_of_mem (propEdge schemas src) sd.properties p _ hp
        (propEdge_error_of_unknown ht hunk) with ⟨e', he'⟩
      exact ⟨e', by simp only [schemaEdges, h1, he']⟩

theorem extractRels_ok (schemas : List (String × Node)) (rels : List Relationship)
    (h : extractRels schemas = Except.ok rels) :
    rels = ((sortSchemas schemas).map
      (fun q => schemaEdgesPure schemas q.1 (interpret q.2))).flatten := by
  cases h1 : mapME (fun q => schemaEdges schemas q.1 (interpret q.2))
      (sortSchemas schemas) with
  | error e =>
    simp only [extractRels, h1] at h
    exact Except.noConfusion h
  | ok chunks =>
    simp only [extractRels, h1] at h
    cases h
    have hc : chunks = (sortSchemas schemas).map
        (fun q => schemaEdgesPure schemas q.1 (interpret q.2)) :=
      forall2_ok_eq_map _ _ (fun a bs hb => schemaEdges_ok schemas a.1 (interpret a.2) bs hb)
        (sortSchemas schemas) chunks (mapME_ok_forall2 _ (sortSchemas schemas) chunks h1)
    rw [hc]

theorem extractRels_error (schemas : List (String × Node)) (e : CoreError)
    (h : extractRels schemas = Except.error e) :
    ∃ m, e = CoreError.unresolvedReference m ∧ lookupKey m schemas = none := by
  cases h1 : mapME (fun q => schemaEdges schemas q.1 (interpret q.2))
      (sortSchemas schemas) with
  | error e1 =>
    simp only [extractRels, h1] at h
    cases h
    rcases mapME_error_mem _ (sortSchemas schemas) _ h1 with ⟨q, _, hq⟩
    exact schemaEdges_error schemas q.1 (interpret q.2) _ hq
  | ok chunks =>
    simp only [extractRels, h1] at h
    exact Except.noConfusion h

theorem extractRels_error_of_ref (schemas : List (String × Node)) (sname : String)
    (raw : Node) (path : String)
    (hmem : (sname, raw) ∈ schemas)
    (hocc : path ∈ (interpret raw).parents ∨
      ∃ p, p ∈ (interpret raw).properties ∧ p.type = PropType.ref path)
    (hunk : lookupKey (refName path) schemas = none) :
    ∃ e, extractRels schemas = Except.error e := by
  have hmem' : (sname, raw) ∈ sortSchemas schemas :=
    (List.perm_insertionSort keyLE schemas).mem_iff.mpr hmem
  rcases schemaEdges_error_of_ref schemas sname (interpret raw) path hocc hunk with ⟨e, he⟩
  rcases mapME_error_of_mem (fun q => schemaEdges schemas q.1 (interpret q.2))
    (sortSchemas schemas) (sname, raw) e hmem' he with ⟨e', he'⟩
  exact ⟨e', by simp only [extractRels, he']⟩

theorem charListLE_refl : ∀ x : List Char, charListLE x x = true := by
  intro x
  induction x with
  | nil => rfl
  | cons c cs ih => simp [charListLE, ih]

theorem strLE_refl (s : String) : strLE s s = true := charListLE_refl s.data

theorem pairwise_const_source (nm : String) :
    ∀ xs : List Relationship, (∀ r, r ∈ xs → r.source = nm) →
      List.Pairwise relLE xs := by
  intro xs
  induction xs with
  | nil => intro _; exact List.Pairwise.nil
  | cons x l ih =>
    intro hs
    refine List.Pairwise.cons ?_ (ih (fun r hr => hs r (List.mem_cons_of_mem x hr)))
    intro b hb
    unfold relLE
    rw [hs x (List.mem_cons_self x l), hs b (List.mem_cons_of_mem x hb)]
    exact strLE_refl nm

theorem schemaEdgesPure_source (schemas : List (String × Node)) (src : String)
    (sd : SchemaDef) : ∀ r, r ∈ schemaEdgesPure schemas src sd → r.source = src := by
  intro r hr
  unfold schemaEdgesPure at hr
  rcases List.mem_append.mp hr with hr | hr
  · rcases List.mem_map.mp hr with ⟨path, _, he⟩
    rw [← he]
    rfl
  · rcases List.mem_filterMap.mp hr with ⟨p, _, hp⟩
    exact propEdgeOpt_some_source hp

theorem sources_sorted_flatten (g : String × Node → List Relationship) :
    ∀ l : List (String × Node),
      (∀ q r, q ∈ l → r ∈ g q → r.source = q.1) →
      List.Pairwise keyLE l →
      List.Pairwise relLE (l.map g).flatten := by
  intro l
  induction l with
  | nil => intro _ _; exact List.Pairwise.nil
  | cons q l ih =>
    intro hsrc hp
    rw [List.map_cons, List.flatten_cons, List.pairwise_append]
    refine ⟨?_, ?_, ?_⟩
    · exact pairwise_const_source q.1 (g q)
        (fun r hr => hsrc q r (List.mem_cons_self q l) hr)
    · exact ih (fun q' r hq' hr => hsrc q' r (List.mem_cons_of_mem q hq') hr)
        (List.Pairwise.of_cons hp)
    · intro a ha b hb
      rcases List.mem_flatten.mp hb with ⟨ys, hys, hbys⟩
      rcases List.mem_map.mp hys with ⟨q', hq', hgq'⟩
      rw [← hgq'] at hbys
      have hb' : b.source = q'.1 := hsrc q' b (List.mem_cons_of_mem q hq') hbys
      have ha' : a.source = q.1 := hsrc q a (List.mem_cons_self q l) ha
      have hle : keyLE q q' := (List.pairwise_cons.mp hp).1 q' hq'
      unfold relLE
      rw [ha', hb']
      exact hle

/-- C3: a reference that does not resolve to a known schema name makes
the whole run fail with UnresolvedReference naming a missing target,
and no output text is produced. -/
theorem c3_unresolved_aborts (doc : Node) (schemas : List (String × Node))
    (sname : String) (raw : Node) (path : String)
    (hdoc : extractSchemas doc = Except.ok schemas)
    (hmem : (sname, raw) ∈ schemas)
    (hocc : path ∈ (interpret raw).parents ∨
      ∃ p, p ∈ (interpret raw).properties ∧ p.type = PropType.ref path)
    (hunk : lookupKey (refName path) schemas = none) :
    ∃ m, pipeline doc = Except.error (CoreError.unresolvedReference m) ∧
      lookupKey m schemas = none ∧ ∀ s, pipeline doc ≠ Except.ok s := by
  rcases extractRels_error_of_ref schemas sname raw path hmem hocc hunk with ⟨e, he⟩
  rcases extractRels_error schemas e he with ⟨m, hem, hmn⟩
  have hpipe : pipeline doc = Except.error e := by
    simp only [pipeline, hdoc, he]
  subst hem
  exact ⟨m, hpipe, hmn, fun s hs => by
    rw [hpipe] at hs
    exact Except.noConfusion hs⟩

theorem c3_witness :
    (∃ m, pipeline docDogAnimal = Except.error (CoreError.unresolvedReference m) ∧
      lookupKey m dogAnimalSchemas = none ∧
      ∀ s, pipeline docDogAnimal ≠ Except.ok s) ∧
    pipeline docDogAnimal = Except.error (CoreError.unresolvedReference "Animal") := by
  constructor
  · exact c3_unresolved_aborts docDogAnimal dogAnimalSchemas "Dog" dogAnimalRaw
      "#/definitions/Animal" rfl (List.mem_singleton.mpr rfl)
      (Or.inl (List.mem_singleton.mpr rfl)) rfl
  · rfl

/-- C4: reference cycles are tolerated: resolution is a single lookup
returning the target's identity without recursive expansion (a total
function), and on cyclic documents the pipeline terminates with the
mutual, respectively self, relationship emitted rather than failing. -/
theorem c4_cycles_terminate :
    resolveRef cycleSchemas "#/definitions/B" = Except.ok ("B", rawB) ∧
    extractRels cycleSchemas = Except.ok
      [⟨"A", "B", RelKind.composition, none⟩,
       ⟨"B", "A", RelKind.composition, none⟩] ∧
    (∃ s, pipeline docCycle = Except.ok s) ∧
    extractRels selfSchemas = Except.ok [⟨"C", "C", RelKind.composition, none⟩] ∧
    (∃ t, pipeline docSelf = Except.ok t) :=
  ⟨rfl, rfl, ⟨_, rfl⟩, rfl, ⟨_, rfl⟩⟩

/-- C5: a schema whose combinator list is exactly one pure reference
and which has no own properties renders with no own members and yields
exactly one inheritance edge to the referenced entity; in particular
the Pet/Dog example renders Pet with member name, Dog with member
breed only, and the single inheritance edge Dog to Pet. -/
theorem c5_pure_inheritance :
    (∀ (entries : List (String × Node)) (path : String),
      lookupKey "allOf" entries =
        some (Node.seq [Node.map [("$ref", Node.scalar path)]]) →
      lookupKey "properties" entries = none →
      (interpret (Node.map entries)).properties = [] ∧
      (interpret (Node.map entries)).parents = [path] ∧
      (∀ ename, renderEntity ename (interpret (Node.map entries)) =
        ["class " ++ quoteName ename ++ " \x7b", "\x7d"]) ∧
      (∀ (schemas : List (String × Node)) (src : String) (raw : Node),
        lookupKey (refName path) schemas = some raw →
        schemaEdges schemas src (interpret (Node.map entries)) =
          Except.ok [⟨src, refName path, RelKind.inheritance, none⟩])) ∧
    pipeline docPetDog = Except.ok petDogText ∧
    (interpret dogSchema).properties =
      [⟨"breed", PropType.prim "string", false, false, false⟩] ∧
    extractRels petDogSchemas =
      Except.ok [⟨"Dog", "Pet", RelKind.inheritance, none⟩] := by
  refine ⟨?_, rfl, rfl, rfl⟩
  intro entries path h1 h2
  have hsd : interpret (Node.map entries) =
      ⟨SchemaKind.composed, [], [path], none, []⟩ := by
    have hm : memberProps (Node.map [("$ref", Node.scalar path)]) = [] := rfl
    have hpr : pureRefPath (Node.map [("$ref", Node.scalar path)]) = some path := rfl
    simp only [interpret, h1]
    simp [schemaProps, h2, hm, hpr]
  refine ⟨by rw [hsd], by rw [hsd], fun ename => by rw [hsd]; rfl, ?_⟩
  intro schemas src raw h3
  rw [hsd]
  have hpe : parentEdge schemas src path =
      Except.ok ⟨src, refName path, RelKind.inheritance, none⟩ := by
    simp only [parentEdge, resolveRef, h3]
  simp [schemaEdges, mapME, hpe]

theorem c5_witness :
    (interpret catRaw).properties = [] ∧
    (interpret catRaw).parents = ["#/definitions/Pet"] ∧
    schemaEdges catSchemas "Cat" (interpret catRaw) =
      Except.ok [⟨"Cat", "Pet", RelKind.inheritance, none⟩] := by
  have h := c5_pure_inheritance.1
    [("allOf", Node.seq [Node.map [("$ref", Node.scalar "#/definitions/Pet")]])]
    "#/definitions/Pet" rfl rfl
  exact ⟨h.1, h.2.1, h.2.2.2 catSchemas "Cat" petSchema rfl⟩

/-- C6: a property whose type references a structural
(object/enum/composed) schema yields exactly one composition edge, and
its multiplicity label is "many" exactly when the property is
array-typed. -/
theorem c6_composition_multiplicity (schemas : List (String × Node)) (src : String)
    (p : Property) (path : String) (raw : Node)
    (ht : p.type = PropType.ref path)
    (hl : lookupKey (refName path) schemas = some raw)
    (hk : (interpret raw).kind = SchemaKind.object ∨
      (interpret raw).kind = SchemaKind.enum ∨
      (interpret raw).kind = SchemaKind.composed) :
    propEdge schemas src p = Except.ok (some
      ⟨src, refName path, RelKind.composition,
        if p.isArray then some "many" else none⟩) := by
  simp only [propEdge, resolveRef, ht, hl, edgeFor]
  rw [if_pos hk]

theorem c6_witness :
    propEdge petDogSchemas "Owner"
        ⟨"pets", PropType.ref "#/definitions/Pet", false, false, true⟩ =
      Except.ok (some ⟨"Owner", "Pet", RelKind.composition, some "many"⟩) :=
  c6_composition_multiplicity petDogSchemas "Owner"
    ⟨"pets", PropType.ref "#/definitions/Pet", false, false, true⟩
    "#/definitions/Pet" petSchema rfl rfl (Or.inl rfl)

/-- C7: edges are emitted in a stable total order — schemas in
ascending lexical name order, and within one schema the property
edges in declaration order (the pure per-schema edge list) — and a
self-referential property still produces its self-loop edge. -/
theorem c7_stable_edge_order (schemas : List (String × Node)) (rels : List Relationship)
    (h : extractRels schemas = Except.ok rels) :
    rels = ((sortSchemas schemas).map
        (fun q => schemaEdgesPure schemas q.1 (interpret q.2))).flatten ∧
    List.Pairwise relLE rels ∧
    (∀ sname raw p path target, (sname, raw) ∈ schemas →
      p ∈ (interpret raw).properties → p.type = PropType.ref path →
      refName path = sname → lookupKey sname schemas = some target →
      ∃ e, e ∈ rels ∧ e.source = sname ∧ e.target = sname) := by
  have h1 := extractRels_ok schemas rels h
  refine ⟨h1, ?_, ?_⟩
  · rw [h1]
    apply sources_sorted_flatten
    · intro q r _ hr
      exact schemaEdgesPure_source schemas q.1 (interpret q.2) r hr
    · exact List.sorted_insertionSort keyLE schemas
  · intro sname raw p path target hmem hp ht hrn hlk
    have hopt : propEdgeOpt schemas sname p =
        some (edgeFor sname p (sname, target)) := by
      simp only [propEdgeOpt, ht, hrn, hlk]
    have hea : (edgeFor sname p (sname, target)).source = sname ∧
        (edgeFor sname p (sname, target)).target = sname := by
      unfold edgeFor
      split <;> exact ⟨rfl, rfl⟩
    have hmemSorted : (sname, raw) ∈ sortSchemas schemas :=
      (List.perm_insertionSort keyLE schemas).mem_iff.mpr hmem
    refine ⟨edgeFor sname p (sname, target), ?_, hea.1, hea.2⟩
    rw [h1]
    apply List.mem_flatten.mpr
    refine ⟨schemaEdgesPure schemas sname (interpret raw), ?_, ?_⟩
    · exact List.mem_map.mpr ⟨(sname, raw), hmemSorted, rfl⟩
    · unfold schemaEdgesPure
      apply List.mem_append.mpr
      right
      exact List.mem_filterMap.mpr ⟨p, hp, hopt⟩

theorem c7_witness :
    ([⟨"C", "C", RelKind.composition, none⟩] : List Relationship) =
      ((sortSchemas selfSchemas).map
        (fun q => schemaEdgesPure selfSchemas q.1 (interpret q.2))).flatten ∧
    List.Pairwise relLE ([⟨"C", "C", RelKind.composition, none⟩] : List Relationship) ∧
    (∀ sname raw p path target, (sname, raw) ∈ selfSchemas →
      p ∈ (interpret raw).properties → p.type = PropType.ref path →
      refName path = sname → lookupKey sname selfSchemas = some target →
      ∃ e, e ∈ ([⟨"C", "C", RelKind.composition, none⟩] : List Relationship) ∧
        e.source = sname ∧ e.target = sname) :=
  c7_stable_edge_order selfSchemas [⟨"C", "C", RelKind.composition, none⟩] rfl

/-- C9: the Document Model fails with MalformedDocument exactly when
the schema section is absent or not a mapping at the top level, and
the only error kinds the pipeline ever surfaces are MalformedDocument
and UnresolvedReference, each carrying a context string. -/
theorem c9_error_boundary :
    (∀ doc : Node,
      (∃ msg, extractSchemas doc = Except.error (CoreError.malformedDocument msg)) ↔
        malformedShape doc = true) ∧
    (∀ (doc : Node) (e : CoreError), pipeline doc = Except.error e →
      (∃ ctx, e = CoreError.malformedDocument ctx) ∨
      (∃ ctx, e = CoreError.unresolvedReference ctx)) := by
  constructor
  · intro doc
    cases doc with
    | scalar s => exact iff_of_true ⟨"document", rfl⟩ rfl
    | seq items => exact iff_of_true ⟨"document", rfl⟩ rfl
    | map entries =>
      cases hl : lookupKey "definitions" entries with
      | none =>
        refine iff_of_true ⟨"definitions", ?_⟩ ?_
        · simp [extractSchemas, hl]
        · simp [malformedShape, hl]
      | some v =>
        cases v with
        | map schemas =>
          refine iff_of_false ?_ ?_
          · rintro ⟨msg, hmsg⟩
            simp only [extractSchemas, hl] at hmsg
            exact Except.noConfusion hmsg
          · simp [malformedShape, hl]
        | scalar s =>
          refine iff_of_true ⟨"definitions", ?_⟩ ?_
          · simp [extractSchemas, hl]
          · simp [malformedShape, hl]
        | seq items =>
          refine iff_of_true ⟨"definitions", ?_⟩ ?_
          · simp [extractSchemas, hl]
          · simp [malformedShape, hl]
  · intro doc e _
    cases e with
    | malformedDocument ctx => exact Or.inl ⟨ctx, rfl⟩
    | unresolvedReference ctx => exact Or.inr ⟨ctx, rfl⟩

theorem c9_witness :
    ((∃ msg, extractSchemas (Node.scalar "x") =
        Except.error (CoreError.malformedDocument msg)) ↔
      malformedShape (Node.scalar "x") = true) ∧
    ((∃ ctx, CoreError.malformedDocument "document" =
        CoreError.malformedDocument ctx) ∨
      (∃ ctx, CoreError.malformedDocument "document" =
        CoreError.unresolvedReference ctx)) :=
  ⟨c9_error_boundary.1 (Node.scalar "x"),
   c9_error_boundary.2 (Node.scalar "x") (CoreError.malformedDocument "document") rfl⟩

theorem c1_witness : petDogText = petDogText ∧ petDogText.data = petDogText.data :=
  c1_deterministic docPetDog docPetDog petDogText petDogText rfl rfl rfl

end SwaggerToUml
